import Mathlib

/-!
Shallow embedding of the convNEAT repository (src/genome.py and src/ConvNEAT.py).

The repository encodes a feed-forward convolutional net as a graph genome:
nodes carry an integer id and a rational depth, genes (edges) carry an id,
the ids of their endpoint nodes, an `enabled` flag and subtype hyperparameters.
Randomness in the Python code (random.choice, random.sample, normalvariate,
weighted_choice) is modelled by passing the drawn values as explicit arguments,
and the population's monotonic id generator is modelled as an explicit counter.
Python floats are modelled by `ℚ`, Python ints by `ℤ`/`ℕ`, Python `//` by
`Int.fdiv` (floor division), and code that can raise (KeyError on a missing
dict key, ValueError on a failed destructuring) returns `Option`/`Except`.
-/

namespace ConvNEAT

/-- An edge genotype as used by `src/genome.py` (class `Gene` of `gene.py` and
its subtypes): the graph identity (`id`, `id_in`, `id_out`, `enabled`) plus the
subtype hyperparameters, which the graph-level operations treat opaquely and
which are therefore modelled by an abstract `payload` token. -/
structure Gene where
  id : ℕ
  id_in : ℕ
  id_out : ℕ
  enabled : Bool
  payload : ℕ
deriving DecidableEq

/-- `Gene.copy(id, id_in, id_out)`: clones the hyperparameters onto a new
identity; the constructor of every gene subtype sets `enabled = True`. -/
def Gene.copy (g : Gene) (id id_in id_out : ℕ) : Gene :=
  ⟨id, id_in, id_out, true, g.payload⟩

/-- `Gene.add_after(id, id_in, id_out)`: creates a fresh gene of a subtype
drawn from `mutate_to`; the drawn subtype and hyperparameters enter as the
explicit `payload` argument. -/
def Gene.add_after (id id_in id_out payload : ℕ) : Gene :=
  ⟨id, id_in, id_out, true, payload⟩

/-- A vertex genotype (class `Node` of `node.py` as used by `src/genome.py`):
an integer id and a rational depth. -/
structure Node where
  id : ℕ
  depth : ℚ
deriving DecidableEq

/-- The genome of `src/genome.py`: node list, gene list, plus the optimizer
genotype (opaque token) and the trained-epochs counter, which only the
dissimilarity metric consumes. -/
structure Genome where
  nodes : List Node
  genes : List Gene
  optimizer : ℕ
  trained : ℚ
deriving DecidableEq

/-- `nodes_by_id`: the id-keyed dict built by `Genome.dicts_by_id`, which
inserts front to back so a later node with a duplicate id overrides an earlier
one; hence the lookup scans the reversed list. -/
def Genome.nodes_by_id (g : Genome) (i : ℕ) : Option Node :=
  g.nodes.reverse.find? (fun n => n.id == i)

/-- `genes_by_id`: the id-keyed dict built by `Genome.dicts_by_id` (later
entries override earlier ones). -/
def Genome.genes_by_id (g : Genome) (i : ℕ) : Option Gene :=
  g.genes.reverse.find? (fun e => e.id == i)

/-- `Genome.dfs(id_s, id_t)`: depth-first search from `id_s` to `id_t` along
enabled genes, with an explicit recursion budget (`fuel`); the Python recursion
is unbounded and terminates on the feed-forward graphs the program builds. -/
def Genome.dfsF (g : Genome) : ℕ → ℕ → ℕ → Bool
  | 0, _, _ => false
  | fuel + 1, s, t =>
    if s = t then true
    else ((g.genes.filter (fun e => e.id_in == s && e.enabled)).map Gene.id_out).any
      (fun p => g.dfsF fuel p t)

/-- `Genome.dfs(id_s, id_t)` with the budget `genes.length + 1`, enough for
every simple path. -/
def Genome.dfs (g : Genome) (s t : ℕ) : Bool :=
  g.dfsF (g.genes.length + 1) s t

/-- `Genome.disable_edge(gene)`: tentatively disables the chosen enabled gene
(the random choice enters as the index `j` into `genes`), re-checks by dfs that
node 2 is still reachable from node 0, reverts on failure; returns the new
genome and whether the disable stuck. -/
def Genome.disable_edge (g : Genome) (j : ℕ) : Genome × Bool :=
  match g.genes[j]? with
  | none => (g, false)
  | some e =>
    if e.enabled then
      let g2 : Genome := { g with genes := g.genes.set j { e with enabled := false } }
      if g2.dfs 0 2 then (g2, true) else (g, false)
    else (g, false)

/-- `Genome.mutate_disable_edge(tries=2)`: repeatedly tries `disable_edge` on
randomly chosen enabled edges until one sticks or the tries run out; the random
choices enter as the list `cs` of gene indices. -/
def Genome.mutate_disable_edge (g : Genome) : List ℕ → Genome
  | [] => g
  | j :: rest =>
    match g.disable_edge j with
    | (g2, true) => g2
    | (_, false) => g.mutate_disable_edge rest

/-- Reachability from `s` to `t` along enabled genes of `g` — the property the
dfs of `src/genome.py` decides. -/
inductive Genome.Reach (g : Genome) : ℕ → ℕ → Prop
  | refl (s : ℕ) : Genome.Reach g s s
  | step {s t : ℕ} (e : Gene) (he : e ∈ g.genes) (hen : e.enabled = true)
      (hin : e.id_in = s) (hr : Genome.Reach g e.id_out t) : Genome.Reach g s t

/-- The per-generation innovation cache `this_gen_mutations`: original edge id
mapped to the issued `[id1, id2, id3, depth]`. -/
abbrev MutCache := List (ℕ × ℕ × ℕ × ℕ × ℚ)

/-- Lookup in `this_gen_mutations`. -/
def cacheLookup (c : MutCache) (k : ℕ) : Option (ℕ × ℕ × ℕ × ℚ) :=
  (c.find? (fun e => e.1 == k)).map (fun e => e.2)

/-- The new node's depth in `split_edge`:
`min(d2-(d2-d1)/10, max(d1+(d2-d1)/10, normalvariate((d1+d2)/2, 0.01)))`,
with the normal draw entering as the explicit argument `r`. -/
def splitDepth (d1 d2 r : ℚ) : ℚ :=
  min (d2 - (d2 - d1) / 10) (max (d1 + (d2 - d1) / 10) r)

/-- `Genome.split_edge(this_gen_mutations)`: the chosen enabled edge enters as
the index `j` into `genes`, the normal draw as `r`, the population id counter
as `counter`, and the subtype drawn by `add_after` as `pl`. On a cache miss
three fresh ids and a clamped depth are issued and recorded; on a hit the
cached ids and depth are reused. Returns `none` where the Python code would
raise (no gene at `j`, a disabled gene at `j` — unreachable for the prefiltered
random choice — or a missing endpoint node id). -/
def Genome.split_edge (g : Genome) (cache : MutCache) (counter : ℕ) (r : ℚ)
    (j : ℕ) (pl : ℕ) : Option (Genome × MutCache × ℕ) :=
  match g.genes[j]? with
  | none => none
  | some edge =>
    if edge.enabled then
      match g.nodes_by_id edge.id_in, g.nodes_by_id edge.id_out with
      | some n1, some n2 =>
        let next :=
          match cacheLookup cache edge.id with
          | some e => (e, cache, counter)
          | none =>
            let depth := splitDepth n1.depth n2.depth r
            ((counter, counter + 1, counter + 2, depth),
              (edge.id, counter, counter + 1, counter + 2, depth) :: cache, counter + 3)
        let id1 := next.1.1
        let id2 := next.1.2.1
        let id3 := next.1.2.2.1
        let depth := next.1.2.2.2
        let newNode : Node := ⟨id1, depth⟩
        let newEdge1 := edge.copy id2 edge.id_in newNode.id
        let newEdge2 := Gene.add_after id3 newNode.id edge.id_out pl
        some ({ g with
                 nodes := g.nodes ++ [newNode],
                 genes := (g.genes.set j { edge with enabled := false }) ++ [newEdge1, newEdge2] },
              next.2.1, next.2.2)
      | _, _ => none
    else none

/-- One round of the retry loop of `Genome.add_edge`: each attempt supplies
the two distinct node positions drawn by `random.sample(self.nodes, 2)`; the
chosen pair is ordered by depth, rejected (decrementing `tries`) if the depths
are equal or the directed pair already exists, and otherwise a new gene with
the next id and the drawn subtype `pl` is appended. -/
def Genome.addEdgeGo (g : Genome) (counter : ℕ) (pl : ℕ) :
    ℕ → List (ℕ × ℕ) → Genome × ℕ
  | 0, _ => (g, counter)
  | _ + 1, [] => (g, counter)
  | t + 1, (i, j) :: rest =>
    match g.nodes[i]?, g.nodes[j]? with
    | some a, some b =>
      if i = j then g.addEdgeGo counter pl t rest
      else
        let n1 := if a.depth > b.depth then b else a
        let n2 := if a.depth > b.depth then a else b
        if n1.depth = n2.depth ∨
            (n1.id, n2.id) ∈ g.genes.map (fun e => (e.id_in, e.id_out)) then
          g.addEdgeGo counter pl t rest
        else
          ({ g with genes := g.genes ++ [⟨counter, n1.id, n2.id, true, pl⟩] }, counter + 1)
    | _, _ => g.addEdgeGo counter pl t rest

/-- `Genome.add_edge`: guarded by `len(self.nodes) >= 2`, then up to 5
attempts. -/
def Genome.add_edge (g : Genome) (counter : ℕ) (pl : ℕ)
    (attempts : List (ℕ × ℕ)) : Genome × ℕ :=
  if 2 ≤ g.nodes.length then g.addEdgeGo counter pl 5 attempts else (g, counter)

/-- A sequence of `add_edge` calls threading the population id counter; each
call brings its drawn subtype and its attempt draws. -/
def Genome.addEdgeCalls (g : Genome) (counter : ℕ) :
    List (ℕ × List (ℕ × ℕ)) → Genome × ℕ
  | [] => (g, counter)
  | c :: cs =>
    Genome.addEdgeCalls (g.add_edge counter c.1 c.2).1 (g.add_edge counter c.1 c.2).2 cs

/-- All (id_in, id_out) pairs of the gene list are distinct. -/
def Genome.pairsNodup (g : Genome) : Prop :=
  (g.genes.map (fun e => (e.id_in, e.id_out))).Nodup

/-- Every gene runs from a shallower node to a strictly deeper one: any nodes
carrying its endpoint ids are strictly ordered by depth. -/
def Genome.depthOrdered (g : Genome) : Prop :=
  ∀ e ∈ g.genes, ∀ n ∈ g.nodes, ∀ m ∈ g.nodes,
    n.id = e.id_in → m.id = e.id_out → n.depth < m.depth

/-- The node ids of a genome are distinct. -/
def Genome.nodeIdsNodup (g : Genome) : Prop :=
  (g.nodes.map Node.id).Nodup

/-- The set of gene ids of a genome (`set(genes_by_id.keys())`). -/
def Genome.geneIds (g : Genome) : Finset ℕ :=
  (g.genes.map Gene.id).toFinset

/-- The set of node ids of a genome (`set(nodes_by_id.keys())`). -/
def Genome.nodeIds (g : Genome) : Finset ℕ :=
  (g.nodes.map Node.id).toFinset

/-- Fallback gene for dict lookups that are guaranteed to succeed. -/
def dGene : Gene := ⟨0, 0, 0, true, 0⟩

/-- Fallback node for dict lookups that are guaranteed to succeed. -/
def dNode : Node := ⟨0, 0⟩

/-- `Genome.dissimilarity(other, c)` of `src/genome.py`. The per-gene and
per-node dissimilarities, the optimizer dissimilarity and `limited_growth`
live in modules outside `src/` and enter as explicit function arguments.
Returns `none` where the Python code would raise: `max` of an empty id set or
a division by a zero count of common node ids. -/
def Genome.dissimilarity (g1 g2 : Genome)
    (geneDis : Gene → Gene → ℚ) (nodeDis : Node → Node → ℚ)
    (optDis : ℕ → ℕ → ℚ) (limitedGrowth : ℚ → ℚ → ℚ → ℚ)
    (c : Fin 6 → ℚ) : Option ℚ :=
  let ids1 := g1.geneIds
  let ids2 := g2.geneIds
  let nodeIdsC := g1.nodeIds ∩ g2.nodeIds
  if h : (ids1 ∪ ids2).Nonempty ∧ nodeIdsC.Nonempty then
    let N : ℚ := 1
    let excessStart := (ids1 ∪ ids2).max' h.1 + 1
    let S := ∑ i ∈ ids1 ∩ ids2,
      geneDis ((g1.genes_by_id i).getD dGene) ((g2.genes_by_id i).getD dGene)
    let D := ((symmDiff ids1 ids2).filter (fun i => i < excessStart)).card
    let E := (symmDiff ids1 ids2).card - D
    let T := optDis g1.optimizer g2.optimizer
    let K := (∑ i ∈ nodeIdsC,
      nodeDis ((g1.nodes_by_id i).getD dNode) ((g2.nodes_by_id i).getD dNode)) / nodeIdsC.card
    let X := limitedGrowth |g1.trained - g2.trained| 1 10
    some ((c 0 * S + c 1 * D + c 2 * E) / N + c 3 * T + c 4 * K + c 5 * X)
  else none

end ConvNEAT

namespace ConvNEATProto

/-!
The self-contained prototype `src/ConvNEAT.py`: its `KernelGene`/`PoolGene`
classes and its `Population` id generator, which the claims about the
convolution output-size formula, the stride/padding mutators and the reserved
id range target.
-/

/-- `KernelGene` of `src/ConvNEAT.py`: graph identity plus the convolution
hyperparameters. -/
structure KernelGene where
  id : ℕ
  id_in : ℕ
  id_out : ℕ
  enabled : Bool
  depth : ℤ
  width : ℤ
  height : ℤ
  stride : ℤ
  padding : ℤ
deriving DecidableEq

/-- `KernelGene.output_size(in_size)`; Python `//` is floor division, hence
`Int.fdiv`. -/
def KernelGene.output_size (k : KernelGene) (in_size : ℤ × ℤ × ℤ) : ℤ × ℤ × ℤ :=
  (k.depth,
   ((in_size.2.1 - k.width + 2 * k.padding - 1).fdiv k.stride) + 1,
   ((in_size.2.2 - k.height + 2 * k.padding - 1).fdiv k.stride) + 1)

/-- `KernelGene.mutate_stride`: the drawn perturbation enters as `r`. The
source line is `self.depth = max(1, self.depth + random.choice([-2, -1, 1, 2]))`
— it assigns to `depth`, not to `stride`. -/
def KernelGene.mutate_stride (k : KernelGene) (r : ℤ) : KernelGene :=
  { k with depth := max 1 (k.depth + r) }

/-- `KernelGene.mutate_padding`: the source line is
`self.depth = max(1, self.depth + random.choice([-2, -1, 1, 2]))` — it assigns
to `depth`, not to `padding`. -/
def KernelGene.mutate_padding (k : KernelGene) (r : ℤ) : KernelGene :=
  { k with depth := max 1 (k.depth + r) }

/-- `PoolGene` of `src/ConvNEAT.py`: graph identity, pooling kind (opaque
token) and the pooling hyperparameters. -/
structure PoolGene where
  id : ℕ
  id_in : ℕ
  id_out : ℕ
  enabled : Bool
  pooling : ℕ
  width : ℤ
  height : ℤ
  padding : ℤ
deriving DecidableEq

/-- `PoolGene.init_padding`: padding is initialized to 0. -/
def PoolGene.init_padding : ℤ := 0

/-- `PoolGene.mutate_padding`:
`self.padding = max(1, self.padding + random.choice([-2, -1, 1, 2]))`. -/
def PoolGene.mutate_padding (p : PoolGene) (r : ℤ) : PoolGene :=
  { p with padding := max 1 (p.padding + r) }

/-- The population's monotonic id generator `itertools.count()`: returns the
issued id and the advanced counter. -/
def next_id (c : ℕ) : ℕ × ℕ := (c, c + 1)

/-- Runs a list of generator draws, mirroring `[f() for f in [self.next_id]*k]`:
collects the issued ids and threads the counter. -/
def runDraws : List (ℕ → ℕ × ℕ) → ℕ → List ℕ × ℕ
  | [], c => ([], c)
  | f :: fs, c =>
    let p := f c
    let q := runDraws fs p.2
    (p.1 :: q.1, q.2)

/-- The ids consumed by `Population.__init__` before any genome exists:
`[f() for f in [self.next_id]*5]` starting from the fresh counter 0.
`Genome(self)` in the prototype draws no ids (`init_genome` uses the literal
ids 0–4), so this is also the counter state after the whole constructor. -/
def Population.initDraws : List ℕ × ℕ := runDraws (List.replicate 5 next_id) 0

/-- The first id issued by `next_id` after `Population.__init__` returns. -/
def Population.firstIssuedId : ℕ := (next_id Population.initDraws.2).1

end ConvNEATProto

namespace GenomeLoad

/-!
`Genome.save`/`Genome.load` of `src/genome.py`. The saved entries are Python
objects reconstructed through classes living outside `src/` (`optimizer.py`,
`node.py`, `gene.py`); they are modelled by an opaque dynamic value type `Obj`,
and the three class-dispatching reconstructions enter `load` as explicit
decoding functions.
-/

/-- An opaque dynamic (Python) value: a numeric/structural token, the float
`inf`, or `None`. -/
inductive Obj
  | tok (n : ℕ)
  | inf
  | none
deriving DecidableEq

/-- The fields of a `Genome` that `save`/`load` touch. -/
structure GenomeState where
  optimizer : Obj
  nodes : Obj
  genes : Obj
  acc : Obj
  netParameters : Obj
  loss : Obj
  trained : Obj
  noChange : Obj
  reward : Obj
deriving DecidableEq

/-- A freshly constructed genome (`Genome.__init__` keyword defaults):
`acc=None`, `net_parameters=None`, `loss=float('inf')`, `trained=0`,
`no_change=0`, `reward=0`. -/
def GenomeState.init (optimizer nodes genes : Obj) : GenomeState :=
  ⟨optimizer, nodes, genes, Obj.none, Obj.none, Obj.inf, Obj.tok 0, Obj.tok 0, Obj.tok 0⟩

/-- `Genome.load(save, load_params=True)`: dispatches on the arity of the
saved structure — 5 fields (earliest format), 9 fields (full format), 8 fields
(full format without `net_parameters`) — and fails (Python: a `ValueError`
from the failed destructuring) for any other arity. `decOpt`/`decNodes`/
`decGenes` model the reconstruction of the nested saved components through
their saved classes. -/
def GenomeState.load (decOpt decNodes decGenes : Obj → Obj) (loadParams : Bool)
    (g : GenomeState) : List Obj → Except Unit GenomeState
  | [o, ns, gs, a, p] =>
    .ok { g with
          optimizer := decOpt o, nodes := decNodes ns, genes := decGenes gs,
          acc := a,
          netParameters := if ¬loadParams ∧ p ≠ Obj.none then Obj.none else p }
  | [o, ns, gs, a, l, t, nc, rw, p] =>
    .ok { optimizer := decOpt o, nodes := decNodes ns, genes := decGenes gs,
          acc := a, loss := l, trained := t, noChange := nc, reward := rw,
          netParameters := if ¬loadParams ∧ p ≠ Obj.none then Obj.none else p }
  | [o, ns, gs, a, l, t, nc, rw] =>
    .ok { optimizer := decOpt o, nodes := decNodes ns, genes := decGenes gs,
          acc := a, loss := l, trained := t, noChange := nc, reward := rw,
          netParameters := Obj.none }
  | _ => .error ()

end GenomeLoad

namespace ConvNEAT

/-- The minimal genome of `src/genome.py`:
Node 0 Input — Edge 3 — Node 1 Flatten — Edge 4 — Node 2 Out. -/
def gEx1 : Genome :=
  ⟨[⟨0, 0⟩, ⟨1, 1⟩, ⟨2, 2⟩], [⟨3, 0, 1, true, 0⟩, ⟨4, 1, 2, true, 0⟩], 0, 0⟩

end ConvNEAT

namespace ConvNEATProto

/-- A concrete `KernelGene` with depth 1, width 3, height 3, stride 1,
padding 0. -/
def kEx1 : KernelGene := ⟨6, 0, 1, true, 1, 3, 3, 1, 0⟩

end ConvNEATProto

/-! ## Theorems -/

namespace ConvNEATProto

/-- C3: the general output-size formula of `KernelGene.output_size` holds, but
the claim's first worked example fails on the code: with width 3, height 3,
stride 1, padding 0 the formula gives `((10−3+0−1)//1)+1 = 7`, so
`output_size([1,10,10]) = [1,7,7]`, not `[1,6,6]`. -/
theorem kernel_output_size_example_counterexample :
    kEx1.output_size (1, 10, 10) ≠ (1, 6, 6) := by decide

/-- C3 (amended): for every `KernelGene` and input size, `output_size` returns
`[depth, ((in_width − width + 2·padding − 1) // stride) + 1,
((in_height − height + 2·padding − 1) // stride) + 1]`; the instance with
width 3, height 3, stride 1, padding 0 on `[1,10,10]` equals `[1,7,7]`, and
with padding 1, stride 2 it equals the kernel's depth followed by 5, 5. -/
theorem kernel_output_size_formula :
    (∀ (k : KernelGene) (d w h : ℤ), k.output_size (d, w, h) =
      (k.depth, ((w - k.width + 2 * k.padding - 1).fdiv k.stride) + 1,
        ((h - k.height + 2 * k.padding - 1).fdiv k.stride) + 1)) ∧
    kEx1.output_size (1, 10, 10) = (1, 7, 7) ∧
    (∀ d : ℤ, KernelGene.output_size ⟨6, 0, 1, true, d, 3, 3, 2, 1⟩ (1, 10, 10) =
      (d, 5, 5)) := by
  refine ⟨fun k d w h => rfl, by decide, fun d => ?_⟩
  show (d, ((10 - 3 + 2 * 1 - 1 : ℤ).fdiv 2) + 1, ((10 - 3 + 2 * 1 - 1 : ℤ).fdiv 2) + 1)
    = (d, 5, 5)
  norm_num
  decide

/-- C4: evaluating the stride and padding mutators of `KernelGene` at a
concrete gene and the drawn perturbation `+1`: both leave `stride` and
`padding` unchanged and instead assign `depth` (the source assigns to
`self.depth` in `mutate_stride` and `mutate_padding` alike), contradicting the
claim that they perturb the stride resp. padding field and leave depth
unchanged. -/
theorem kernel_stride_padding_mutators_assign_depth :
    (kEx1.mutate_stride 1).stride = kEx1.stride ∧
    (kEx1.mutate_stride 1).padding = kEx1.padding ∧
    (kEx1.mutate_stride 1).width = kEx1.width ∧
    (kEx1.mutate_stride 1).height = kEx1.height ∧
    (kEx1.mutate_stride 1).depth = 2 ∧
    kEx1.depth = 1 ∧
    (kEx1.mutate_padding 1).padding = kEx1.padding ∧
    (kEx1.mutate_padding 1).stride = kEx1.stride ∧
    (kEx1.mutate_padding 1).depth = 2 := by decide

/-- C5: `Population.__init__` reserves exactly the five ids 0, 1, 2, 3, 4
(`[f() for f in [self.next_id]*5]`), and genome construction draws no further
ids, so the first id issued to any genome operation after construction is 5 —
not 6 as the claim states. -/
theorem population_reserves_ids_zero_to_four :
    Population.initDraws = ([0, 1, 2, 3, 4], 5) ∧
    Population.firstIssuedId = 5 ∧ Population.firstIssuedId ≠ 6 := by decide

/-- Helper: once at least 1, the padding stays at least 1 under any further
padding mutations. -/
theorem pool_foldl_padding_ge (rs : List ℤ) :
    ∀ q : PoolGene, 1 ≤ q.padding →
      1 ≤ (rs.foldl PoolGene.mutate_padding q).padding := by
  induction rs with
  | nil => exact fun q h => h
  | cons r rest ih =>
    intro q _
    exact ih (q.mutate_padding r) (le_max_left 1 _)

/-- C10: `PoolGene.padding` is initialized to 0, yet every call of the padding
mutator floors the result at 1; hence after the mutator fires once, any
sequence of further padding mutations keeps the padding at least 1 — it can
never return to 0. -/
theorem pool_mutate_padding_floor :
    PoolGene.init_padding = 0 ∧
    (∀ (p : PoolGene) (r : ℤ), 1 ≤ (p.mutate_padding r).padding) ∧
    (∀ (p : PoolGene) (r : ℤ) (rs : List ℤ),
      1 ≤ (rs.foldl PoolGene.mutate_padding (p.mutate_padding r)).padding ∧
        (rs.foldl PoolGene.mutate_padding (p.mutate_padding r)).padding ≠ 0) := by
  refine ⟨rfl, fun p r => le_max_left 1 _, fun p r rs => ?_⟩
  have h := pool_foldl_padding_ge rs (p.mutate_padding r) (le_max_left 1 _)
  exact ⟨h, by omega⟩

end ConvNEATProto

namespace ConvNEAT

/-- Soundness of the depth-first search: whenever `dfsF` answers `true`, the
target really is reachable from the source along enabled genes. -/
theorem dfsF_sound (g : Genome) :
    ∀ (fuel s t : ℕ), g.dfsF fuel s t = true → g.Reach s t := by
  intro fuel
  induction fuel with
  | zero => intro s t h; simp [Genome.dfsF] at h
  | succ n ih =>
    intro s t h
    by_cases hst : s = t
    · subst hst; exact .refl s
    · rw [Genome.dfsF, if_neg hst, List.any_eq_true] at h
      obtain ⟨p, hp, hdfs⟩ := h
      rw [List.mem_map] at hp
      obtain ⟨e, he, rfl⟩ := hp
      rw [List.mem_filter] at he
      obtain ⟨hee, hcond⟩ := he
      simp only [Bool.and_eq_true, beq_iff_eq] at hcond
      exact .step e hee hcond.2 hcond.1 (ih _ _ hdfs)

/-- Soundness of `dfs` (the call of `dfsF` with the standard budget). -/
theorem dfs_sound (g : Genome) (s t : ℕ) (h : g.dfs s t = true) : g.Reach s t :=
  dfsF_sound g _ s t h

/-- When `disable_edge` reports success, the dfs re-check on the modified
genome passed. -/
theorem disable_edge_true_dfs (g : Genome) (j : ℕ) (g2 : Genome)
    (h : g.disable_edge j = (g2, true)) : g2.dfs 0 2 = true := by
  unfold Genome.disable_edge at h
  split at h
  · simp at h
  · split at h
    · dsimp only at h
      split at h
      · rename_i hdfs
        injection h with h1 h2
        subst h1
        exact hdfs
      · simp at h
    · simp at h

/-- C2: for every genome in which node 2 is reachable from node 0 through
enabled edges, node 2 is still reachable from node 0 through enabled edges
after any call of `mutate_disable_edge` (any number of tries, any random edge
choices): a tentative disable that breaks reachability is reverted by the
dfs check inside `disable_edge`. -/
theorem mutate_disable_edge_keeps_reach (g : Genome) (cs : List ℕ)
    (h : g.Reach 0 2) : (g.mutate_disable_edge cs).Reach 0 2 := by
  induction cs with
  | nil => exact h
  | cons j rest ih =>
    rw [Genome.mutate_disable_edge]
    rcases hd : g.disable_edge j with ⟨g2, b⟩
    cases b
    · exact ih
    · exact dfs_sound g2 0 2 (disable_edge_true_dfs g j g2 hd)

/-- C2 witness: in the minimal genome node 2 is reachable from node 0, and it
still is after `mutate_disable_edge` tries to disable the first edge. -/
theorem mutate_disable_edge_keeps_reach_witness :
    gEx1.Reach 0 2 ∧ (gEx1.mutate_disable_edge [0]).Reach 0 2 := by
  have h : gEx1.Reach 0 2 :=
    .step ⟨3, 0, 1, true, 0⟩ (by decide) rfl rfl
      (.step ⟨4, 1, 2, true, 0⟩ (by decide) rfl rfl (.refl 2))
  exact ⟨h, mutate_disable_edge_keeps_reach gEx1 [0] h⟩

end ConvNEAT

namespace ConvNEAT

/-- C1: for a genome whose selected enabled edge has strictly ordered endpoint
depths `d1 < d2`, a `split_edge` call that misses the innovation cache inserts
exactly one new node whose depth is the fresh draw clamped into
`[d1+(d2−d1)/10, d2−(d2−d1)/10]` and hence lies strictly between `d1` and
`d2`; the original edge is disabled in place but still present in `genes`
(never removed), and exactly one node and two genes are added. -/
theorem split_edge_spec (g : Genome) (cache : MutCache) (counter : ℕ) (r : ℚ)
    (j pl : ℕ) (edge : Gene) (n1 n2 : Node)
    (hget : g.genes[j]? = some edge) (hen : edge.enabled = true)
    (h1 : g.nodes_by_id edge.id_in = some n1)
    (h2 : g.nodes_by_id edge.id_out = some n2)
    (hd : n1.depth < n2.depth) (hmiss : cacheLookup cache edge.id = none) :
    ∃ g2 cache2 counter2,
      g.split_edge cache counter r j pl = some (g2, cache2, counter2) ∧
      g2.nodes = g.nodes ++ [⟨counter, splitDepth n1.depth n2.depth r⟩] ∧
      n1.depth < splitDepth n1.depth n2.depth r ∧
      splitDepth n1.depth n2.depth r < n2.depth ∧
      n1.depth + (n2.depth - n1.depth) / 10 ≤ splitDepth n1.depth n2.depth r ∧
      splitDepth n1.depth n2.depth r ≤ n2.depth - (n2.depth - n1.depth) / 10 ∧
      g2.genes[j]? = some { edge with enabled := false } ∧
      g2.nodes.length = g.nodes.length + 1 ∧
      g2.genes.length = g.genes.length + 2 := by
  have hj : j < g.genes.length := (List.getElem?_eq_some.mp hget).1
  have hδ : 0 < (n2.depth - n1.depth) / 10 := by linarith
  have hBA : n1.depth + (n2.depth - n1.depth) / 10 ≤
      n2.depth - (n2.depth - n1.depth) / 10 := by linarith
  have hlow : n1.depth + (n2.depth - n1.depth) / 10 ≤ splitDepth n1.depth n2.depth r :=
    le_min hBA (le_max_left _ _)
  have hhigh : splitDepth n1.depth n2.depth r ≤ n2.depth - (n2.depth - n1.depth) / 10 :=
    min_le_left _ _
  refine ⟨{ g with
      nodes := g.nodes ++ [⟨counter, splitDepth n1.depth n2.depth r⟩],
      genes := (g.genes.set j { edge with enabled := false }) ++
        [edge.copy (counter + 1) edge.id_in counter,
         Gene.add_after (counter + 2) counter edge.id_out pl] },
    (edge.id, counter, counter + 1, counter + 2, splitDepth n1.depth n2.depth r) :: cache,
    counter + 3, ?_, rfl, ?_, ?_, hlow, hhigh, ?_, ?_, ?_⟩
  · simp only [Genome.split_edge, hget, hen, h1, h2, hmiss, if_true]
  · exact lt_of_lt_of_le (by linarith) hlow
  · exact lt_of_le_of_lt hhigh (by linarith)
  · rw [List.getElem?_append_left (by simpa using hj), List.getElem?_set_self]
    simp [hj]
  · simp
  · simp [List.length_set, hj]

/-- C1 witness: splitting the first edge of the minimal genome with an empty
cache, counter 5 and draw 1/2. -/
theorem split_edge_spec_witness :
    ∃ g2 cache2 counter2,
      gEx1.split_edge [] 5 (1/2) 0 0 = some (g2, cache2, counter2) ∧
      g2.nodes = gEx1.nodes ++ [⟨5, splitDepth (0 : ℚ) 1 (1/2)⟩] ∧
      (0 : ℚ) < splitDepth 0 1 (1/2) ∧
      splitDepth (0 : ℚ) 1 (1/2) < 1 ∧
      (0 : ℚ) + (1 - 0) / 10 ≤ splitDepth 0 1 (1/2) ∧
      splitDepth (0 : ℚ) 1 (1/2) ≤ 1 - (1 - 0) / 10 ∧
      g2.genes[0]? = some ⟨3, 0, 1, false, 0⟩ ∧
      g2.nodes.length = gEx1.nodes.length + 1 ∧
      g2.genes.length = gEx1.genes.length + 2 :=
  split_edge_spec gEx1 [] 5 (1/2) 0 0 ⟨3, 0, 1, true, 0⟩ ⟨0, 0⟩ ⟨1, 1⟩
    (by decide) rfl (by decide) (by decide) (by norm_num) rfl

end ConvNEAT

namespace ConvNEAT

/-- C6: splitting an edge records its issued ids and depth in the shared
`this_gen_mutations` cache, so a second `split_edge` in the same generation —
on any genome — that selects an edge with the same original edge id reuses the
cached innovation entry: both calls append a new node with the identical id
and depth and two new genes with the identical ids, instead of drawing fresh
ids from the population generator. -/
theorem split_edge_innovation_reuse
    (gA gB : Genome) (cache : MutCache) (counter : ℕ) (r rB : ℚ)
    (jA jB plA plB : ℕ) (edgeA edgeB : Gene) (a1 a2 b1 b2 : Node)
    (hgetA : gA.genes[jA]? = some edgeA) (henA : edgeA.enabled = true)
    (hA1 : gA.nodes_by_id edgeA.id_in = some a1)
    (hA2 : gA.nodes_by_id edgeA.id_out = some a2)
    (hmiss : cacheLookup cache edgeA.id = none)
    (hgetB : gB.genes[jB]? = some edgeB) (henB : edgeB.enabled = true)
    (hB1 : gB.nodes_by_id edgeB.id_in = some b1)
    (hB2 : gB.nodes_by_id edgeB.id_out = some b2)
    (hid : edgeB.id = edgeA.id) :
    ∃ g2 c2 k2 g3 c3 k3,
      gA.split_edge cache counter r jA plA = some (g2, c2, k2) ∧
      gB.split_edge c2 k2 rB jB plB = some (g3, c3, k3) ∧
      g2.nodes.getLast? = some ⟨counter, splitDepth a1.depth a2.depth r⟩ ∧
      g3.nodes.getLast? = some ⟨counter, splitDepth a1.depth a2.depth r⟩ ∧
      (g2.genes.map Gene.id).drop gA.genes.length = [counter + 1, counter + 2] ∧
      (g3.genes.map Gene.id).drop gB.genes.length = [counter + 1, counter + 2] := by
  have hhit : cacheLookup
      ((edgeA.id, counter, counter + 1, counter + 2, splitDepth a1.depth a2.depth r) :: cache)
      edgeB.id = some (counter, counter + 1, counter + 2, splitDepth a1.depth a2.depth r) := by
    simp [cacheLookup, List.find?, hid]
  refine ⟨{ gA with
      nodes := gA.nodes ++ [⟨counter, splitDepth a1.depth a2.depth r⟩],
      genes := (gA.genes.set jA { edgeA with enabled := false }) ++
        [edgeA.copy (counter + 1) edgeA.id_in counter,
         Gene.add_after (counter + 2) counter edgeA.id_out plA] },
    (edgeA.id, counter, counter + 1, counter + 2, splitDepth a1.depth a2.depth r) :: cache,
    counter + 3,
    { gB with
      nodes := gB.nodes ++ [⟨counter, splitDepth a1.depth a2.depth r⟩],
      genes := (gB.genes.set jB { edgeB with enabled := false }) ++
        [edgeB.copy (counter + 1) edgeB.id_in counter,
         Gene.add_after (counter + 2) counter edgeB.id_out plB] },
    (edgeA.id, counter, counter + 1, counter + 2, splitDepth a1.depth a2.depth r) :: cache,
    counter + 3, ?_, ?_, ?_, ?_, ?_, ?_⟩
  · simp only [Genome.split_edge, hgetA, henA, hA1, hA2, hmiss, if_true]
  · simp only [Genome.split_edge, hgetB, henB, hB1, hB2, hhit, if_true]
  · exact List.getLast?_concat _
  · exact List.getLast?_concat _
  · rw [List.map_append, List.drop_left' (by simp)]
    rfl
  · rw [List.map_append, List.drop_left' (by simp)]
    rfl

/-- C6 witness: two splits of edge id 3 of the minimal genome in one
generation; the second reuses the cached ids and depth. -/
theorem split_edge_innovation_reuse_witness :
    ∃ g2 c2 k2 g3 c3 k3,
      gEx1.split_edge [] 5 (1/2) 0 0 = some (g2, c2, k2) ∧
      gEx1.split_edge c2 k2 (3/4) 0 1 = some (g3, c3, k3) ∧
      g2.nodes.getLast? = some ⟨5, splitDepth (0 : ℚ) 1 (1/2)⟩ ∧
      g3.nodes.getLast? = some ⟨5, splitDepth (0 : ℚ) 1 (1/2)⟩ ∧
      (g2.genes.map Gene.id).drop gEx1.genes.length = [6, 7] ∧
      (g3.genes.map Gene.id).drop gEx1.genes.length = [6, 7] :=
  split_edge_innovation_reuse gEx1 gEx1 [] 5 (1/2) (3/4) 0 0 0 1
    ⟨3, 0, 1, true, 0⟩ ⟨3, 0, 1, true, 0⟩ ⟨0, 0⟩ ⟨1, 1⟩ ⟨0, 0⟩ ⟨1, 1⟩
    (by decide) rfl (by decide) (by decide) rfl
    (by decide) rfl (by decide) (by decide) rfl

end ConvNEAT

namespace ConvNEAT

/-- Helper: appending a gene between two distinct-depth nodes whose directed
id pair is not yet present preserves the pair-distinctness and depth-ordering
invariants. -/
theorem addEdge_append_invariant (g : Genome) (counter pl : ℕ)
    (n1 n2 : Node) (h1 : n1 ∈ g.nodes) (h2 : n2 ∈ g.nodes)
    (hlt : n1.depth < n2.depth)
    (hnotin : (n1.id, n2.id) ∉ g.genes.map (fun e => (e.id_in, e.id_out)))
    (hids : g.nodeIdsNodup) (hp : g.pairsNodup) (hd : g.depthOrdered) :
    Genome.pairsNodup { g with genes := g.genes ++ [⟨counter, n1.id, n2.id, true, pl⟩] } ∧
    Genome.depthOrdered { g with genes := g.genes ++ [⟨counter, n1.id, n2.id, true, pl⟩] } := by
  constructor
  · unfold Genome.pairsNodup at *
    simp only [List.map_append, List.map_cons, List.map_nil]
    rw [List.nodup_append]
    refine ⟨hp, List.nodup_singleton _, ?_⟩
    intro x hx hx1
    simp only [List.mem_singleton] at hx1
    subst hx1
    exact hnotin hx
  · intro e he n hn m hm hnid hmid
    simp only [List.mem_append, List.mem_singleton] at he
    rcases he with he | rfl
    · exact hd e he n hn m hm hnid hmid
    · have hn1 : n = n1 := List.inj_on_of_nodup_map hids hn h1 hnid
      have hm2 : m = n2 := List.inj_on_of_nodup_map hids hm h2 hmid
      rw [hn1, hm2]
      exact hlt

/-- Helper: one bounded retry round of `add_edge` leaves the node list alone
and preserves the pair-distinctness and depth-ordering invariants. -/
theorem addEdgeGo_preserves (g : Genome) (counter pl : ℕ)
    (hids : g.nodeIdsNodup) (hp : g.pairsNodup) (hd : g.depthOrdered) :
    ∀ (tries : ℕ) (attempts : List (ℕ × ℕ)),
      (g.addEdgeGo counter pl tries attempts).1.nodes = g.nodes ∧
      (g.addEdgeGo counter pl tries attempts).1.pairsNodup ∧
      (g.addEdgeGo counter pl tries attempts).1.depthOrdered := by
  intro tries
  induction tries with
  | zero => intro attempts; exact ⟨rfl, hp, hd⟩
  | succ t ih =>
    intro attempts
    cases attempts with
    | nil => exact ⟨rfl, hp, hd⟩
    | cons att rest =>
      obtain ⟨i, j⟩ := att
      rw [Genome.addEdgeGo]
      cases hi : g.nodes[i]? with
      | none => exact ih rest
      | some a =>
        cases hj : g.nodes[j]? with
        | none => exact ih rest
        | some b =>
          by_cases hij : i = j
          · simp only [if_pos hij]
            exact ih rest
          · simp only [if_neg hij]
            by_cases hab : a.depth > b.depth
            · simp only [if_pos hab]
              by_cases hrej : b.depth = a.depth ∨
                  (b.id, a.id) ∈ g.genes.map (fun e => (e.id_in, e.id_out))
              · simp only [if_pos hrej]
                exact ih rest
              · simp only [if_neg hrej]
                push_neg at hrej
                have hmem := addEdge_append_invariant g counter pl b a
                  (List.getElem?_mem hj) (List.getElem?_mem hi) hab hrej.2 hids hp hd
                exact ⟨by trivial, hmem.1, hmem.2⟩
            · simp only [if_neg hab]
              by_cases hrej : a.depth = b.depth ∨
                  (a.id, b.id) ∈ g.genes.map (fun e => (e.id_in, e.id_out))
              · simp only [if_pos hrej]
                exact ih rest
              · simp only [if_neg hrej]
                push_neg at hrej
                have hlt : a.depth < b.depth :=
                  lt_of_le_of_ne (le_of_not_lt hab) hrej.1
                have hmem := addEdge_append_invariant g counter pl a b
                  (List.getElem?_mem hi) (List.getElem?_mem hj) hlt hrej.2 hids hp hd
                exact ⟨by trivial, hmem.1, hmem.2⟩

/-- Helper: a full `add_edge` call leaves the node list alone and preserves
the pair-distinctness and depth-ordering invariants. -/
theorem add_edge_preserves (g : Genome) (counter pl : ℕ)
    (attempts : List (ℕ × ℕ))
    (hids : g.nodeIdsNodup) (hp : g.pairsNodup) (hd : g.depthOrdered) :
    (g.add_edge counter pl attempts).1.nodes = g.nodes ∧
    (g.add_edge counter pl attempts).1.pairsNodup ∧
    (g.add_edge counter pl attempts).1.depthOrdered := by
  unfold Genome.add_edge
  split
  · exact addEdgeGo_preserves g counter pl hids hp hd 5 attempts
  · exact ⟨rfl, hp, hd⟩

/-- C7: on a genome with at least 2 nodes and distinct node ids in which all
`(id_in, id_out)` pairs are distinct and every gene points from a strictly
shallower to a strictly deeper node, any number of repeated `add_edge` calls
(with any random node samples and gene-type draws) preserves both properties:
no duplicated directed pair is ever added and no gene whose source depth is
greater than or equal to its target depth is ever added. -/
theorem add_edge_calls_invariant (g : Genome) (counter : ℕ)
    (calls : List (ℕ × List (ℕ × ℕ)))
    (hn2 : 2 ≤ g.nodes.length) (hids : g.nodeIdsNodup)
    (hp : g.pairsNodup) (hd : g.depthOrdered) :
    (g.addEdgeCalls counter calls).1.pairsNodup ∧
    (g.addEdgeCalls counter calls).1.depthOrdered := by
  induction calls generalizing g counter with
  | nil => exact ⟨hp, hd⟩
  | cons c cs ih =>
    rw [Genome.addEdgeCalls]
    have hpre := add_edge_preserves g counter c.1 c.2 hids hp hd
    exact ih (g.add_edge counter c.1 c.2).1 (g.add_edge counter c.1 c.2).2
      (hpre.1 ▸ hn2) (by unfold Genome.nodeIdsNodup; rw [hpre.1]; exact hids)
      hpre.2.1 hpre.2.2

/-- C7 witness: two `add_edge` calls on the minimal genome, the first
attempting the pair of node positions (0, 2). -/
theorem add_edge_calls_invariant_witness :
    2 ≤ gEx1.nodes.length ∧ gEx1.nodeIdsNodup ∧ gEx1.pairsNodup ∧ gEx1.depthOrdered ∧
    ((gEx1.addEdgeCalls 5 [(0, [(0, 2)]), (1, [(2, 1), (1, 1)])]).1.pairsNodup ∧
      (gEx1.addEdgeCalls 5 [(0, [(0, 2)]), (1, [(2, 1), (1, 1)])]).1.depthOrdered) := by
  have h1 : 2 ≤ gEx1.nodes.length := by decide
  have h2 : gEx1.nodeIdsNodup := by unfold Genome.nodeIdsNodup; decide
  have h3 : gEx1.pairsNodup := by unfold Genome.pairsNodup; decide
  have h4 : gEx1.depthOrdered := by unfold Genome.depthOrdered; decide
  exact ⟨h1, h2, h3, h4,
    add_edge_calls_invariant gEx1 5 [(0, [(0, 2)]), (1, [(2, 1), (1, 1)])] h1 h2 h3 h4⟩

end ConvNEAT

namespace ConvNEAT

/-- C8: for two genomes that each have at least one gene and at least one
common node id, every id in the symmetric difference of the gene-id sets lies
below `excess_start` (one past the maximum id present in either genome), so
the disjoint count `D` absorbs the whole symmetric difference, the excess term
`E` is 0, and with the normalizer `N` fixed at 1 the returned distance equals
`c0·S + c1·D + c3·T + c4·K + c5·X`. -/
theorem dissimilarity_no_excess (g1 g2 : Genome)
    (geneDis : Gene → Gene → ℚ) (nodeDis : Node → Node → ℚ)
    (optDis : ℕ → ℕ → ℚ) (limitedGrowth : ℚ → ℚ → ℚ → ℚ) (c : Fin 6 → ℚ)
    (h1 : g1.genes ≠ []) (h2 : g2.genes ≠ [])
    (hn : (g1.nodeIds ∩ g2.nodeIds).Nonempty) :
    g1.dissimilarity g2 geneDis nodeDis optDis limitedGrowth c =
      some (c 0 * (∑ i ∈ g1.geneIds ∩ g2.geneIds,
              geneDis ((g1.genes_by_id i).getD dGene) ((g2.genes_by_id i).getD dGene))
        + c 1 * ((symmDiff g1.geneIds g2.geneIds).card : ℚ)
        + c 3 * optDis g1.optimizer g2.optimizer
        + c 4 * ((∑ i ∈ g1.nodeIds ∩ g2.nodeIds,
              nodeDis ((g1.nodes_by_id i).getD dNode) ((g2.nodes_by_id i).getD dNode))
            / ((g1.nodeIds ∩ g2.nodeIds).card : ℚ))
        + c 5 * limitedGrowth |g1.trained - g2.trained| 1 10) := by
  have hne : (g1.geneIds ∪ g2.geneIds).Nonempty := by
    refine Finset.Nonempty.mono Finset.subset_union_left ?_
    obtain ⟨e, he⟩ := List.exists_mem_of_ne_nil g1.genes h1
    exact ⟨e.id, by simp [Genome.geneIds]; exact ⟨e, he, rfl⟩⟩
  rw [Genome.dissimilarity]
  rw [dif_pos ⟨hne, hn⟩]
  have hfilter : ∀ hp : (g1.geneIds ∪ g2.geneIds).Nonempty,
      ((symmDiff g1.geneIds g2.geneIds).filter
        (fun i => i < (g1.geneIds ∪ g2.geneIds).max' hp + 1)) =
      symmDiff g1.geneIds g2.geneIds := by
    intro hp
    apply Finset.filter_true_of_mem
    intro i hi
    have hiu : i ∈ g1.geneIds ∪ g2.geneIds := by
      rw [Finset.mem_symmDiff] at hi
      rcases hi with ⟨hi, -⟩ | ⟨hi, -⟩
      · exact Finset.mem_union_left _ hi
      · exact Finset.mem_union_right _ hi
    exact Nat.lt_succ_of_le (Finset.le_max' _ i hiu)
  dsimp only
  rw [hfilter _]
  rw [Nat.sub_self]
  push_cast
  ring_nf

/-- C8 witness: the minimal genome compared with itself under concrete
component dissimilarities. -/
theorem dissimilarity_no_excess_witness :
    ∃ q, gEx1.dissimilarity gEx1 (fun _ _ => 0) (fun _ _ => 0) (fun _ _ => 0)
      (fun _ _ _ => 0) (fun _ => (5 : ℚ)) = some q := by
  refine ⟨_, dissimilarity_no_excess gEx1 gEx1 _ _ _ _ _ ?_ ?_ ?_⟩
  · decide
  · decide
  · show ((gEx1.nodeIds ∩ gEx1.nodeIds)).Nonempty
    decide

end ConvNEAT

namespace GenomeLoad

/-- C9: `Genome.load` dispatches on the arity of the saved structure. A 5-tuple
restores `optimizer`, `nodes`, `genes`, `acc` and `net_parameters` and leaves
`loss`, `trained`, `no_change` and `reward` untouched — on a freshly
constructed genome they stay at the construction defaults `inf`, 0, 0, 0; a
9-tuple restores all nine fields; an 8-tuple restores all but
`net_parameters`, which is set to absent; and `load` signals a format error
exactly for the arities other than 5, 8 and 9. -/
theorem load_arity_dispatch (decOpt decNodes decGenes : Obj → Obj) :
    (∀ (g : GenomeState) (o ns gs a p : Obj),
      GenomeState.load decOpt decNodes decGenes true g [o, ns, gs, a, p] =
        .ok { g with optimizer := decOpt o, nodes := decNodes ns, genes := decGenes gs,
                     acc := a, netParameters := p }) ∧
    (∀ o0 n0 g0 o ns gs a p : Obj,
      GenomeState.load decOpt decNodes decGenes true (GenomeState.init o0 n0 g0)
          [o, ns, gs, a, p] =
        .ok ⟨decOpt o, decNodes ns, decGenes gs, a, p, Obj.inf, Obj.tok 0, Obj.tok 0,
          Obj.tok 0⟩) ∧
    (∀ (g : GenomeState) (o ns gs a l t nc rw p : Obj),
      GenomeState.load decOpt decNodes decGenes true g [o, ns, gs, a, l, t, nc, rw, p] =
        .ok ⟨decOpt o, decNodes ns, decGenes gs, a, p, l, t, nc, rw⟩) ∧
    (∀ (g : GenomeState) (o ns gs a l t nc rw : Obj),
      GenomeState.load decOpt decNodes decGenes true g [o, ns, gs, a, l, t, nc, rw] =
        .ok ⟨decOpt o, decNodes ns, decGenes gs, a, Obj.none, l, t, nc, rw⟩) ∧
    (∀ (lp : Bool) (g : GenomeState) (save : List Obj),
      GenomeState.load decOpt decNodes decGenes lp g save = .error () ↔
        save.length ≠ 5 ∧ save.length ≠ 8 ∧ save.length ≠ 9) := by
  refine ⟨fun g o ns gs a p => by simp [GenomeState.load],
    fun o0 n0 g0 o ns gs a p => by simp [GenomeState.load, GenomeState.init],
    fun g o ns gs a l t nc rw p => by simp [GenomeState.load],
    fun g o ns gs a l t nc rw => rfl,
    fun lp g save => ?_⟩
  rcases save with _ | ⟨x1, _ | ⟨x2, _ | ⟨x3, _ | ⟨x4, _ | ⟨x5, _ | ⟨x6, _ | ⟨x7,
    _ | ⟨x8, _ | ⟨x9, _ | ⟨x10, rest⟩⟩⟩⟩⟩⟩⟩⟩⟩⟩ <;>
      simp [GenomeState.load] <;> omega

end GenomeLoad
